import Mathlib

/-!
Verification of the six-cities CLI (offer generator and TSV-to-JSON transcoder).

JavaScript strings are modelled as lists of characters (`Str`).  Every
definition below is translated from the repository's source: the streaming
transform `TSVTransform` (its `_transform` and `_flush` methods), the offer
synthesizer `generateOffers` with its helpers (`generateRandomNumber`,
`getRandomItem`, `getRandomItems`, `generateRandomLocation`), the fetch phase
of `handleGenerateCommand`, and the non-streaming importer of
`src/cli/cli.ts`.  `Math.random()` draws are passed in explicitly as rational
parameters; `Math.sqrt`, `Math.cos` and `Math.sin` outputs are likewise passed
as parameters constrained by hypotheses in the theorems that need them.
-/

namespace SixCities

/-- Characters of a JavaScript string, modelled as a list of Lean characters. -/
abbrev Str := List Char

/-- The code points removed by JavaScript String.prototype.trim: the
ECMAScript WhiteSpace and LineTerminator sets. -/
def jsWhitespace (c : Char) : Bool :=
  [9, 10, 11, 12, 13, 32, 160, 0x1680, 0x2000, 0x2001, 0x2002, 0x2003, 0x2004,
   0x2005, 0x2006, 0x2007, 0x2008, 0x2009, 0x200A, 0x2028, 0x2029, 0x202F,
   0x205F, 0x3000, 0xFEFF].contains c.toNat

/-- JavaScript String.prototype.trim: drop leading and trailing whitespace. -/
def jsTrim (s : Str) : Str :=
  ((s.dropWhile jsWhitespace).reverse.dropWhile jsWhitespace).reverse

/-- Prepend a string onto the first element of a list of strings (an empty
list receives the string as its only element). -/
def consFirst (p : Str) : List Str → List Str
  | [] => [p]
  | l :: ls => (p ++ l) :: ls

/-- JavaScript String.prototype.split with a one-character separator: the
result is never empty, and splitting the empty string gives one empty field. -/
def splitOnChar (sep : Char) : Str → List Str
  | [] => [[]]
  | c :: rest =>
    if c = sep then [] :: splitOnChar sep rest
    else consFirst [c] (splitOnChar sep rest)

/-- JavaScript Array.prototype.join with a one-character separator. -/
def joinSep (sep : Char) : List Str → Str
  | [] => []
  | [l] => l
  | l :: ls => l ++ sep :: joinSep sep ls

@[simp] theorem consFirst_nil (p : Str) : consFirst p [] = [p] := rfl

@[simp] theorem consFirst_cons (p l : Str) (ls : List Str) :
    consFirst p (l :: ls) = (p ++ l) :: ls := rfl

theorem splitOnChar_nil (sep : Char) : splitOnChar sep [] = [[]] := rfl

theorem splitOnChar_cons (sep c : Char) (rest : Str) :
    splitOnChar sep (c :: rest) =
      if c = sep then [] :: splitOnChar sep rest
      else consFirst [c] (splitOnChar sep rest) := rfl

@[simp] theorem joinSep_nil (sep : Char) : joinSep sep [] = [] := rfl

@[simp] theorem joinSep_single (sep : Char) (l : Str) : joinSep sep [l] = l := rfl

@[simp] theorem joinSep_cons₂ (sep : Char) (l l2 : Str) (ls : List Str) :
    joinSep sep (l :: l2 :: ls) = l ++ sep :: joinSep sep (l2 :: ls) := rfl

theorem consFirst_ne_nil (p : Str) (ls : List Str) : consFirst p ls ≠ [] := by
  cases ls <;> simp

theorem splitOnChar_ne_nil (sep : Char) (s : Str) : splitOnChar sep s ≠ [] := by
  cases s with
  | nil => simp [splitOnChar_nil]
  | cons c rest =>
    rw [splitOnChar_cons]
    split
    · simp
    · exact consFirst_ne_nil _ _

/-- No element of the split contains the separator. -/
theorem not_mem_of_mem_splitOnChar (sep : Char) (s : Str) :
    ∀ l ∈ splitOnChar sep s, sep ∉ l := by
  induction s with
  | nil => intro l hl; rw [splitOnChar_nil] at hl; simp at hl; simp [hl]
  | cons c rest ih =>
    intro l hl
    rw [splitOnChar_cons] at hl
    by_cases hc : c = sep
    · rw [if_pos hc] at hl
      rcases List.mem_cons.mp hl with rfl | h
      · simp
      · exact ih l h
    · rw [if_neg hc] at hl
      cases hsp : splitOnChar sep rest with
      | nil => exact absurd hsp (splitOnChar_ne_nil sep rest)
      | cons m ms =>
        rw [hsp, consFirst_cons] at hl
        rcases List.mem_cons.mp hl with rfl | h
        · have hm : sep ∉ m := ih m (by rw [hsp]; simp)
          intro hmem
          rcases List.mem_append.mp hmem with h1 | h1
          · rw [List.mem_singleton] at h1
            exact hc h1.symm
          · exact hm h1
        · exact ih l (by rw [hsp]; exact List.mem_cons_of_mem _ h)

/-- Splitting a string free of the separator yields exactly that string. -/
theorem splitOnChar_of_not_mem (sep : Char) (s : Str) (h : sep ∉ s) :
    splitOnChar sep s = [s] := by
  induction s with
  | nil => rfl
  | cons c rest ih =>
    have h1 : ¬c = sep := fun hc => h (by simp [hc])
    have h2 : sep ∉ rest := fun hm => h (List.mem_cons_of_mem _ hm)
    rw [splitOnChar_cons, if_neg h1, ih h2, consFirst_cons]
    simp

theorem consFirst_append (p : Str) (xs ys : List Str) (hxs : xs ≠ []) :
    consFirst p (xs ++ ys) = consFirst p xs ++ ys := by
  cases xs with
  | nil => exact absurd rfl hxs
  | cons x xs => simp

/-- The key structural fact behind chunk-boundary independence: splitting a
concatenation is the split of the first part with the split of the second
part grafted onto its last field. -/
theorem splitOnChar_append (sep : Char) (s t : Str) :
    splitOnChar sep (s ++ t) =
      (splitOnChar sep s).dropLast ++
        consFirst ((splitOnChar sep s).getLastD []) (splitOnChar sep t) := by
  induction s with
  | nil =>
    rw [List.nil_append, splitOnChar_nil]
    cases h : splitOnChar sep t with
    | nil => exact absurd h (splitOnChar_ne_nil sep t)
    | cons m ms => simp
  | cons c rest ih =>
    rw [List.cons_append, splitOnChar_cons, splitOnChar_cons]
    by_cases hc : c = sep
    · rw [if_pos hc, if_pos hc, ih]
      cases h : splitOnChar sep rest with
      | nil => exact absurd h (splitOnChar_ne_nil sep rest)
      | cons m ms =>
        cases ms with
        | nil => simp [List.getLastD_cons]
        | cons m2 ms2 => simp [List.getLastD_cons]
    · rw [if_neg hc, if_neg hc]
      cases h : splitOnChar sep rest with
      | nil => exact absurd h (splitOnChar_ne_nil sep rest)
      | cons m ms =>
        rw [h] at ih
        cases ms with
        | nil =>
          rw [ih]
          cases h2 : splitOnChar sep t with
          | nil => exact absurd h2 (splitOnChar_ne_nil sep t)
          | cons u us => simp [List.getLastD_cons]
        | cons m2 ms2 =>
          rw [ih]
          simp [List.getLastD_cons]

/-- Joining the split of a string recovers the string. -/
theorem joinSep_splitOnChar (sep : Char) (s : Str) :
    joinSep sep (splitOnChar sep s) = s := by
  induction s with
  | nil => rfl
  | cons c rest ih =>
    rw [splitOnChar_cons]
    by_cases hc : c = sep
    · rw [if_pos hc]
      cases h : splitOnChar sep rest with
      | nil => exact absurd h (splitOnChar_ne_nil sep rest)
      | cons m ms =>
        rw [h] at ih
        simp [← ih, hc]
    · rw [if_neg hc]
      cases h : splitOnChar sep rest with
      | nil => exact absurd h (splitOnChar_ne_nil sep rest)
      | cons m ms =>
        rw [h] at ih
        cases ms with
        | nil => simpa using ih
        | cons m2 ms2 =>
          rw [← ih]
          simp

/-- Splitting the join of separator-free fields recovers the fields. -/
theorem splitOnChar_joinSep (sep : Char) (ls : List Str)
    (hne : ls ≠ []) (h : ∀ l ∈ ls, sep ∉ l) :
    splitOnChar sep (joinSep sep ls) = ls := by
  induction ls with
  | nil => exact absurd rfl hne
  | cons l ls ih =>
    cases ls with
    | nil => exact splitOnChar_of_not_mem sep l (h l (by simp))
    | cons l2 ls2 =>
      have hl : sep ∉ l := h l (by simp)
      rw [joinSep_cons₂, splitOnChar_append sep l (sep :: joinSep sep (l2 :: ls2)),
        splitOnChar_of_not_mem sep l hl]
      rw [show splitOnChar sep (sep :: joinSep sep (l2 :: ls2)) =
        [] :: splitOnChar sep (joinSep sep (l2 :: ls2)) from by
          rw [splitOnChar_cons, if_pos rfl]]
      rw [ih (by simp) (fun x hx => h x (List.mem_cons_of_mem _ hx))]
      simp

theorem getLastD_mem {α : Type} (l : List α) (d : α) (h : l ≠ []) :
    l.getLastD d ∈ l := by
  induction l generalizing d with
  | nil => exact absurd rfl h
  | cons x xs ih =>
    cases xs with
    | nil => simp [List.getLastD]
    | cons y ys =>
      rw [List.getLastD_cons]
      exact List.mem_cons_of_mem _ (ih x (by simp))

theorem getLastD_irrel {α : Type} (ys : List α) (h : ys ≠ []) (d1 d2 : α) :
    ys.getLastD d1 = ys.getLastD d2 := by
  cases ys with
  | nil => exact absurd rfl h
  | cons y ys => rw [List.getLastD_cons, List.getLastD_cons]

theorem getLastD_append {α : Type} (xs ys : List α) (d : α) (h : ys ≠ []) :
    (xs ++ ys).getLastD d = ys.getLastD d := by
  induction xs generalizing d with
  | nil => rfl
  | cons x xs ih =>
    rw [List.cons_append, List.getLastD_cons, ih x]
    exact getLastD_irrel ys h x d

theorem dropLast_append' {α : Type} (xs ys : List α) (h : ys ≠ []) :
    (xs ++ ys).dropLast = xs ++ ys.dropLast := by
  induction xs with
  | nil => rfl
  | cons x xs ih =>
    rw [List.cons_append]
    cases hxy : xs ++ ys with
    | nil => exact absurd (List.append_eq_nil.mp hxy).2 h
    | cons z zs =>
      rw [List.dropLast_cons₂, ← hxy, ih]
      rfl

/-! ## The TSV-to-JSON transcoder (class TSVTransform) -/

/-- Observable output of the transcoder: a pushed string (this.push) or a
console warning (console.error of a skip message). -/
inductive Out where
  | push : Str → Out
  | warn : Str → Out
deriving DecidableEq

/-- The fixed column-name sequence set in the TSVTransform constructor. -/
def COLUMNS : List Str :=
  ["title", "description", "city", "previewImage", "photos", "isPremium",
   "rating", "type", "rooms", "guests", "price", "features", "authorName",
   "authorEmail", "authorAvatar", "authorIsPro", "latitude",
   "longitude"].map String.toList

/-- Hexadecimal digit character, lowercase, as JSON.stringify prints them. -/
def hexDigitChar (n : ℕ) : Char :=
  if n < 10 then Char.ofNat (48 + n) else Char.ofNat (87 + n)

/-- The escaping JSON.stringify applies to one character of a string value. -/
def jsonEscapeChar (c : Char) : Str :=
  if c = '"' then ['\\', '"']
  else if c = '\\' then ['\\', '\\']
  else if c = Char.ofNat 8 then ['\\', 'b']
  else if c = '\t' then ['\\', 't']
  else if c = '\n' then ['\\', 'n']
  else if c = Char.ofNat 12 then ['\\', 'f']
  else if c = Char.ofNat 13 then ['\\', 'r']
  else if c.toNat < 32 then
    ['\\', 'u', '0', '0', hexDigitChar (c.toNat / 16), hexDigitChar (c.toNat % 16)]
  else [c]

/-- A JSON string literal for a JavaScript string. -/
def jsonQuote (s : Str) : Str :=
  '"' :: ((s.map jsonEscapeChar).flatten ++ ['"'])

/-- JSON.stringify of an object with string keys and string values, keys in
insertion order (the braces are code points 123 and 125). -/
def jsonStringify (pairs : List (Str × Str)) : Str :=
  Char.ofNat 123 ::
    (joinSep ',' (pairs.map fun p => jsonQuote p.1 ++ ':' :: jsonQuote p.2) ++
      [Char.ofNat 125])

/-- Processing of one complete line inside TSVTransform._transform: skip a
whitespace-only line silently, warn and skip a line whose tab-split field
count differs from the column count, otherwise push one JSON object followed
by a newline.  Object.fromEntries keeps all pairs in insertion order here
because the column names are pairwise distinct, and neither it nor
JSON.stringify can throw on string inputs, so the catch branch is dead. -/
def processLine (line : Str) : List Out :=
  if jsTrim line = [] then []
  else
    let values := splitOnChar '\t' line
    if values.length ≠ COLUMNS.length then [Out.warn line]
    else [Out.push (jsonStringify (COLUMNS.zip values) ++ ['\n'])]

/-- The remainder left by one _transform call: the last element of the
newline split of remainder + chunk (lines.pop() followed by the fallback
to the empty string). -/
def nextRemainder (remainder chunk : Str) : Str :=
  (splitOnChar '\n' (remainder ++ chunk)).getLastD []

/-- The outputs of one _transform call: every element of the newline split
except the popped last one, processed in order. -/
def chunkOutputs (remainder chunk : Str) : List Out :=
  (((splitOnChar '\n' (remainder ++ chunk)).dropLast).map processLine).flatten

/-- One call of TSVTransform._transform, as a state transformer from the
remainder buffer to the new remainder and the emitted outputs. -/
def transformChunk (remainder chunk : Str) : Str × List Out :=
  (nextRemainder remainder chunk, chunkOutputs remainder chunk)

/-- TSVTransform._flush: if the remainder is non-empty, split it on tabs and
push one JSON object followed by a newline when the field count matches the
column count; nothing is emitted otherwise (no trim check, no warning). -/
def flushStep (remainder : Str) : List Out :=
  if remainder = [] then []
  else
    let values := splitOnChar '\t' remainder
    if values.length = COLUMNS.length then
      [Out.push (jsonStringify (COLUMNS.zip values) ++ ['\n'])]
    else []

/-- Feeding a list of chunks to _transform in order, starting from a given
remainder; returns the final remainder and the concatenated outputs. -/
def runChunks (remainder : Str) : List Str → Str × List Out
  | [] => (remainder, [])
  | c :: cs =>
    let t := runChunks (nextRemainder remainder c) cs
    (t.1, chunkOutputs remainder c ++ t.2)

/-- A full run of the transcoder: constructor state (empty remainder), all
chunks through _transform, then _flush. -/
def transcode (chunks : List Str) : List Out :=
  (runChunks [] chunks).2 ++ flushStep (runChunks [] chunks).1

/-- The pushed strings among the outputs (the emitted JSON lines). -/
def pushes (outs : List Out) : List Str :=
  outs.filterMap fun o =>
    match o with
    | .push s => some s
    | .warn _ => none

theorem nextRemainder_no_newline (r c : Str) : '\n' ∉ nextRemainder r c :=
  not_mem_of_mem_splitOnChar '\n' (r ++ c) _
    (getLastD_mem _ [] (splitOnChar_ne_nil '\n' (r ++ c)))

theorem nextRemainder_append (r a b : Str) :
    nextRemainder r (a ++ b) = nextRemainder (nextRemainder r a) b := by
  have hfree : '\n' ∉ (splitOnChar '\n' (r ++ a)).getLastD [] :=
    not_mem_of_mem_splitOnChar '\n' (r ++ a) _
      (getLastD_mem _ [] (splitOnChar_ne_nil '\n' (r ++ a)))
  unfold nextRemainder
  rw [← List.append_assoc, splitOnChar_append '\n' (r ++ a) b,
    splitOnChar_append '\n' ((splitOnChar '\n' (r ++ a)).getLastD []) b,
    splitOnChar_of_not_mem '\n' _ hfree,
    getLastD_append _ _ [] (consFirst_ne_nil _ _)]
  simp

theorem chunkOutputs_append (r a b : Str) :
    chunkOutputs r (a ++ b) = chunkOutputs r a ++ chunkOutputs (nextRemainder r a) b := by
  have hfree : '\n' ∉ (splitOnChar '\n' (r ++ a)).getLastD [] :=
    not_mem_of_mem_splitOnChar '\n' (r ++ a) _
      (getLastD_mem _ [] (splitOnChar_ne_nil '\n' (r ++ a)))
  unfold chunkOutputs nextRemainder
  rw [← List.append_assoc, splitOnChar_append '\n' (r ++ a) b,
    splitOnChar_append '\n' ((splitOnChar '\n' (r ++ a)).getLastD []) b,
    splitOnChar_of_not_mem '\n' _ hfree,
    dropLast_append' _ _ (consFirst_ne_nil _ _)]
  simp [List.map_append, List.flatten_append, List.getLastD_cons]

theorem runChunks_eq_single (r : Str) (hr : '\n' ∉ r) (cs : List Str) :
    runChunks r cs = (nextRemainder r cs.flatten, chunkOutputs r cs.flatten) := by
  induction cs generalizing r with
  | nil =>
    have h1 : splitOnChar '\n' r = [r] := splitOnChar_of_not_mem '\n' r hr
    simp [runChunks, nextRemainder, chunkOutputs, h1, List.getLastD]
  | cons c cs ih =>
    have step := ih (nextRemainder r c) (nextRemainder_no_newline r c)
    simp only [runChunks, step, List.flatten_cons]
    rw [← nextRemainder_append, ← chunkOutputs_append]

/-- A transcoder run is a function of the concatenated input text alone. -/
theorem transcode_eq_of_join_eq (cs1 cs2 : List Str) (h : cs1.flatten = cs2.flatten) :
    transcode cs1 = transcode cs2 := by
  unfold transcode
  rw [runChunks_eq_single [] (by simp) cs1, runChunks_eq_single [] (by simp) cs2, h]

theorem processLine_ws (line : Str) (h1 : jsTrim line = []) :
    processLine line = [] := by
  simp [processLine, h1]

theorem processLine_invalid (line : Str) (h1 : jsTrim line ≠ [])
    (h2 : (splitOnChar '\t' line).length ≠ COLUMNS.length) :
    processLine line = [Out.warn line] := by
  simp [processLine, h1, h2]

theorem processLine_valid (line : Str) (h1 : jsTrim line ≠ [])
    (h2 : (splitOnChar '\t' line).length = COLUMNS.length) :
    processLine line =
      [Out.push (jsonStringify (COLUMNS.zip (splitOnChar '\t' line)) ++ ['\n'])] := by
  simp [processLine, h1, h2]

theorem join_map_newline_eq_joinSep (ls : List Str) :
    (ls.map (· ++ ['\n'])).flatten = joinSep '\n' (ls ++ [[]]) := by
  induction ls with
  | nil => rfl
  | cons l ls ih =>
    rw [List.map_cons, List.flatten_cons, ih]
    cases ls with
    | nil => simp
    | cons l2 ls2 => simp

/-- Transcoding a single chunk made of newline-terminated, newline-free
lines processes exactly those lines and leaves an empty remainder. -/
theorem transcode_terminated_lines (ls : List Str) (h : ∀ l ∈ ls, '\n' ∉ l) :
    transcode [(ls.map (· ++ ['\n'])).flatten] = (ls.map processLine).flatten := by
  have hsplit : splitOnChar '\n' ((ls.map (· ++ ['\n'])).flatten) = ls ++ [[]] := by
    rw [join_map_newline_eq_joinSep]
    exact splitOnChar_joinSep '\n' (ls ++ [[]]) (by simp)
      (by
        intro l hl
        rcases List.mem_append.mp hl with h1 | h1
        · exact h l h1
        · rw [List.mem_singleton] at h1; simp [h1])
  unfold transcode
  rw [runChunks_eq_single [] (by simp)]
  simp only [List.flatten_cons, List.flatten_nil, List.append_nil, nextRemainder,
    chunkOutputs, List.nil_append, hsplit]
  rw [getLastD_append _ _ [] (by simp), List.dropLast_concat]
  simp [flushStep]

theorem dropLast_append_getLastD {α : Type} (l : List α) (d : α) (h : l ≠ []) :
    l.dropLast ++ [l.getLastD d] = l := by
  induction l generalizing d with
  | nil => exact absurd rfl h
  | cons x xs ih =>
    cases xs with
    | nil => simp [List.getLastD]
    | cons y ys =>
      rw [List.dropLast_cons₂, List.getLastD_cons, List.cons_append,
        ih x (by simp)]

theorem joinSep_concat (sep : Char) (xs : List Str) (x : Str) (h : xs ≠ []) :
    joinSep sep (xs ++ [x]) = (joinSep sep xs ++ [sep]) ++ x := by
  induction xs with
  | nil => exact absurd rfl h
  | cons a as ih =>
    cases as with
    | nil => simp
    | cons a2 as2 =>
      have h1 : joinSep sep ((a :: a2 :: as2) ++ [x]) =
          a ++ sep :: joinSep sep ((a2 :: as2) ++ [x]) := by
        simp only [List.cons_append, joinSep_cons₂]
      rw [h1, ih (by simp)]
      simp

/-- The last field of a split is the suffix of the string after its last
separator: the string decomposes as a prefix that is empty or ends with the
separator, followed by that last field. -/
theorem splitOnChar_last_decomp (sep : Char) (s : Str) :
    ∃ p, s = p ++ (splitOnChar sep s).getLastD [] ∧
      (p = [] ∨ p.getLast? = some sep) := by
  have hL := splitOnChar_ne_nil sep s
  have hjoin := joinSep_splitOnChar sep s
  by_cases hd : (splitOnChar sep s).dropLast = []
  · obtain ⟨x, hx⟩ : ∃ x, splitOnChar sep s = [x] := by
      cases hL2 : splitOnChar sep s with
      | nil => exact absurd hL2 hL
      | cons a as =>
        cases as with
        | nil => exact ⟨a, rfl⟩
        | cons a2 as2 =>
          rw [hL2, List.dropLast_cons₂] at hd
          simp at hd
    refine ⟨[], ?_, .inl rfl⟩
    rw [hx] at hjoin
    rw [hx]
    simpa using hjoin.symm
  · have hsplit_eq :
        (splitOnChar sep s).dropLast ++ [(splitOnChar sep s).getLastD []] =
          splitOnChar sep s :=
      dropLast_append_getLastD _ [] hL
    refine ⟨joinSep sep (splitOnChar sep s).dropLast ++ [sep], ?_,
      .inr (List.getLast?_concat _)⟩
    conv_lhs => rw [← hjoin, ← hsplit_eq]
    rw [joinSep_concat sep _ _ hd]

/-! ## Byte-level input (Buffer chunks decoded by chunk.toString()) -/

/-- The Unicode replacement character U+FFFD. -/
def repl : Char := Char.ofNat 0xFFFD

/-- Leading byte of a two-byte UTF-8 sequence. -/
def isLead2 (b : ℕ) : Bool := decide (0xC2 ≤ b ∧ b ≤ 0xDF)

/-- Leading byte of a three-byte UTF-8 sequence. -/
def isLead3 (b : ℕ) : Bool := decide (0xE0 ≤ b ∧ b ≤ 0xEF)

/-- Leading byte of a four-byte UTF-8 sequence. -/
def isLead4 (b : ℕ) : Bool := decide (0xF0 ≤ b ∧ b ≤ 0xF4)

/-- A UTF-8 continuation byte. -/
def isCont (b : ℕ) : Bool := decide (0x80 ≤ b ∧ b ≤ 0xBF)

/-- Valid second byte after a three-byte lead (excludes overlong encodings
after 0xE0 and surrogates after 0xED). -/
def cont3Ok (b1 b2 : ℕ) : Bool :=
  decide ((if b1 = 0xE0 then 0xA0 else 0x80) ≤ b2 ∧
    b2 ≤ (if b1 = 0xED then 0x9F else 0xBF))

/-- Valid second byte after a four-byte lead (excludes overlong encodings
after 0xF0 and code points beyond U+10FFFF after 0xF4). -/
def cont4Ok (b1 b2 : ℕ) : Bool :=
  decide ((if b1 = 0xF0 then 0x90 else 0x80) ≤ b2 ∧
    b2 ≤ (if b1 = 0xF4 then 0x8F else 0xBF))

/-- UTF-8 decoding with U+FFFD replacement for invalid input, as
Buffer.prototype.toString applies it to one chunk in isolation: a maximal
valid prefix of a truncated sequence at the end of the chunk becomes one
replacement character, an invalid byte in the middle becomes one
replacement character and decoding resumes at the offending byte. -/
def utf8DecodeJs : List ℕ → List Char
  | [] => []
  | b1 :: rest1 =>
    if b1 < 0x80 then Char.ofNat b1 :: utf8DecodeJs rest1
    else if isLead2 b1 then
      match rest1 with
      | [] => [repl]
      | b2 :: rest2 =>
        if isCont b2 then
          Char.ofNat ((b1 - 0xC0) * 64 + (b2 - 0x80)) :: utf8DecodeJs rest2
        else repl :: utf8DecodeJs (b2 :: rest2)
    else if isLead3 b1 then
      match rest1 with
      | [] => [repl]
      | b2 :: rest2 =>
        if cont3Ok b1 b2 then
          match rest2 with
          | [] => [repl]
          | b3 :: rest3 =>
            if isCont b3 then
              Char.ofNat ((b1 - 0xE0) * 4096 + (b2 - 0x80) * 64 + (b3 - 0x80)) ::
                utf8DecodeJs rest3
            else repl :: utf8DecodeJs (b3 :: rest3)
        else repl :: utf8DecodeJs (b2 :: rest2)
    else if isLead4 b1 then
      match rest1 with
      | [] => [repl]
      | b2 :: rest2 =>
        if cont4Ok b1 b2 then
          match rest2 with
          | [] => [repl]
          | b3 :: rest3 =>
            if isCont b3 then
              match rest3 with
              | [] => [repl]
              | b4 :: rest4 =>
                if isCont b4 then
                  Char.ofNat ((b1 - 0xF0) * 262144 + (b2 - 0x80) * 4096 +
                      (b3 - 0x80) * 64 + (b4 - 0x80)) :: utf8DecodeJs rest4
                else repl :: utf8DecodeJs (b4 :: rest4)
            else repl :: utf8DecodeJs (b3 :: rest3)
        else repl :: utf8DecodeJs (b2 :: rest2)
    else repl :: utf8DecodeJs rest1

/-- A run of the transcoder on raw Buffer chunks: _transform calls
chunk.toString() on each chunk in isolation before any buffering, exactly as
in the source, so a multi-byte character split across a chunk boundary is
decoded as replacement characters. -/
def transcodeBytes (chunks : List (List ℕ)) : List Out :=
  transcode (chunks.map utf8DecodeJs)

/-- C1 counterexample: the same byte sequence — a line whose first character
is the two-byte letter U+00E9 followed by seventeen tabs and a newline —
split at a chunk boundary inside the two-byte character produces different
pushed JSON lines than the unsplit run, because each chunk is decoded to
text independently. -/
theorem c1_counterexample :
    ([0xC3, 0xA9] ++ (List.replicate 17 9 ++ [10]) : List ℕ) =
      [0xC3] ++ (0xA9 :: (List.replicate 17 9 ++ [10])) ∧
    pushes (transcodeBytes [[0xC3, 0xA9] ++ (List.replicate 17 9 ++ [10])]) ≠
      pushes (transcodeBytes [[0xC3], 0xA9 :: (List.replicate 17 9 ++ [10])]) := by
  constructor
  · decide
  · decide

/-- C1 (amended): chunk-boundary independence at text level — two chunkings
of the same character sequence produce identical outputs through _transform
and _flush, in particular identical pushed JSON lines.  (At raw byte level
the property fails when a boundary splits a multi-byte UTF-8 character, see
the counterexample.) -/
theorem c1_chunk_independence (cs1 cs2 : List Str) (h : cs1.flatten = cs2.flatten) :
    transcode cs1 = transcode cs2 ∧
    pushes (transcode cs1) = pushes (transcode cs2) :=
  ⟨transcode_eq_of_join_eq cs1 cs2 h,
   by rw [transcode_eq_of_join_eq cs1 cs2 h]⟩

theorem c1_witness :
    (["ab\ncd".toList, "e\nf".toList] : List Str).flatten =
      (["a".toList, "b\ncde\n".toList, "f".toList] : List Str).flatten ∧
    transcode ["ab\ncd".toList, "e\nf".toList] =
      transcode ["a".toList, "b\ncde\n".toList, "f".toList] := by
  constructor
  · decide
  · exact (c1_chunk_independence ["ab\ncd".toList, "e\nf".toList]
      ["a".toList, "b\ncde\n".toList, "f".toList] (by decide)).1

/-- C9: after processing any sequence of chunks from the initial (empty)
remainder, the remainder buffer contains no newline and is exactly the
suffix of the concatenated input after its last newline: the input is the
remainder preceded by a prefix that is empty or ends in a newline. -/
theorem c9_remainder_invariant (cs : List Str) :
    '\n' ∉ (runChunks [] cs).1 ∧
    ∃ p, cs.flatten = p ++ (runChunks [] cs).1 ∧
      (p = [] ∨ p.getLast? = some '\n') := by
  rw [runChunks_eq_single [] (by simp) cs]
  refine ⟨nextRemainder_no_newline [] cs.flatten, ?_⟩
  have h := splitOnChar_last_decomp '\n' cs.flatten
  simpa [nextRemainder] using h

/-- The body (without trailing newline) of the specification's end-to-end
example line. -/
def exampleBody : Str :=
  "Cozy Loft\tNice place\tParis\timg.jpg\timg.jpg;img2.jpg\ttrue\t4.5\tapartment\t2\t4\t120\twifi;parking\tJane\tjane@x.com\tavatar.jpg\tfalse\t48.856600\t2.352200".toList

/-- The JSON object line the specification requires for the example line. -/
def exampleJSON : Str :=
  ("\x7b\"title\":\"Cozy Loft\",\"description\":\"Nice place\",\"city\":\"Paris\",\"previewImage\":\"img.jpg\",\"photos\":\"img.jpg;img2.jpg\",\"isPremium\":\"true\",\"rating\":\"4.5\",\"type\":\"apartment\",\"rooms\":\"2\",\"guests\":\"4\",\"price\":\"120\",\"features\":\"wifi;parking\",\"authorName\":\"Jane\",\"authorEmail\":\"jane@x.com\",\"authorAvatar\":\"avatar.jpg\",\"authorIsPro\":\"false\",\"latitude\":\"48.856600\",\"longitude\":\"2.352200\"\x7d\n").toList

set_option maxRecDepth 8192 in
/-- C2 (amended): every complete, non-whitespace-only line with exactly 18
tab-separated fields is emitted as exactly one JSON object zipping the fixed
column names with the split values, the values being the unmodified input
substrings (joining them back with tabs recovers the line); in particular
the specification's example line transcodes to exactly its given JSON
object.  (A whitespace-only line is skipped even when it has exactly 18
fields, see the counterexample.) -/
theorem c2_valid_line_emission :
    (∀ line : Str, '\n' ∉ line → jsTrim line ≠ [] →
      (splitOnChar '\t' line).length = 18 →
      transcode [line ++ ['\n']] =
        [Out.push (jsonStringify (COLUMNS.zip (splitOnChar '\t' line)) ++ ['\n'])] ∧
      joinSep '\t' (splitOnChar '\t' line) = line) ∧
    transcode [exampleBody ++ ['\n']] = [Out.push exampleJSON] := by
  have hcols : COLUMNS.length = 18 := by decide
  constructor
  · intro line h1 h2 h3
    refine ⟨?_, joinSep_splitOnChar '\t' line⟩
    have ht := transcode_terminated_lines [line] (by
      intro l hl
      rw [List.mem_singleton] at hl
      rw [hl]
      exact h1)
    simp only [List.map_cons, List.map_nil, List.flatten_cons,
      List.flatten_nil, List.append_nil] at ht
    rw [ht, processLine_valid line h2 (by rw [hcols]; exact h3)]
  · decide

/-- C2 counterexample: a line of seventeen tabs is a complete input line
with exactly 18 tab-separated fields, yet the transcoder emits nothing for
it, because the whitespace-only check precedes the field-count check. -/
theorem c2_counterexample :
    (splitOnChar '\t' (List.replicate 17 '\t')).length = 18 ∧
    transcode [List.replicate 17 '\t' ++ ['\n']] = [] := by
  constructor
  · decide
  · decide

theorem c2_witness :
    transcode [exampleBody ++ ['\n']] =
      [Out.push (jsonStringify (COLUMNS.zip (splitOnChar '\t' exampleBody)) ++ ['\n'])] ∧
    joinSep '\t' (splitOnChar '\t' exampleBody) = exampleBody :=
  c2_valid_line_emission.1 exampleBody (by decide) (by decide) (by decide)

/-- C3: a complete non-whitespace line whose tab-split field count differs
from 18 yields exactly one warning and no push, and a stream containing it
between two valid 18-field lines still emits both valid lines as JSON, in
order, around the warning. -/
theorem c3_invalid_line_skipped (bad g1 g2 : Str)
    (hb1 : '\n' ∉ bad) (hb2 : jsTrim bad ≠ [])
    (hb3 : (splitOnChar '\t' bad).length ≠ 18)
    (hg11 : '\n' ∉ g1) (hg12 : jsTrim g1 ≠ [])
    (hg13 : (splitOnChar '\t' g1).length = 18)
    (hg21 : '\n' ∉ g2) (hg22 : jsTrim g2 ≠ [])
    (hg23 : (splitOnChar '\t' g2).length = 18) :
    processLine bad = [Out.warn bad] ∧
    transcode [g1 ++ '\n' :: (bad ++ '\n' :: (g2 ++ ['\n']))] =
      [Out.push (jsonStringify (COLUMNS.zip (splitOnChar '\t' g1)) ++ ['\n']),
       Out.warn bad,
       Out.push (jsonStringify (COLUMNS.zip (splitOnChar '\t' g2)) ++ ['\n'])] := by
  have hcols : COLUMNS.length = 18 := by decide
  have hwarn : processLine bad = [Out.warn bad] :=
    processLine_invalid bad hb2 (by rw [hcols]; exact hb3)
  refine ⟨hwarn, ?_⟩
  have ht := transcode_terminated_lines [g1, bad, g2] (by
    intro l hl
    simp only [List.mem_cons, List.not_mem_nil, or_false] at hl
    rcases hl with rfl | rfl | rfl <;> assumption)
  have harg : ([g1, bad, g2].map (· ++ ['\n'])).flatten =
      g1 ++ '\n' :: (bad ++ '\n' :: (g2 ++ ['\n'])) := by
    simp
  rw [harg] at ht
  rw [ht, List.map_cons, List.map_cons, List.map_cons, List.map_nil,
    processLine_valid g1 hg12 (by rw [hcols]; exact hg13), hwarn,
    processLine_valid g2 hg22 (by rw [hcols]; exact hg23)]
  simp

theorem c3_witness :
    processLine ['x'] = [Out.warn ['x']] ∧
    transcode [('a' :: List.replicate 17 '\t') ++ '\n' ::
        (['x'] ++ '\n' :: (('b' :: List.replicate 17 '\t') ++ ['\n']))] =
      [Out.push (jsonStringify
          (COLUMNS.zip (splitOnChar '\t' ('a' :: List.replicate 17 '\t'))) ++ ['\n']),
       Out.warn ['x'],
       Out.push (jsonStringify
          (COLUMNS.zip (splitOnChar '\t' ('b' :: List.replicate 17 '\t'))) ++ ['\n'])] :=
  c3_invalid_line_skipped ['x'] ('a' :: List.replicate 17 '\t')
    ('b' :: List.replicate 17 '\t') (by decide) (by decide) (by decide)
    (by decide) (by decide) (by decide) (by decide) (by decide) (by decide)

/-- C4 counterexample: for the remainder made of seventeen tabs — a
whitespace-only string with exactly 18 tab-separated fields — the flush step
emits a JSON object while the per-line processing step emits nothing, so the
flush does not behave identically to per-line processing. -/
theorem c4_counterexample :
    jsTrim (List.replicate 17 '\t') = [] ∧
    (splitOnChar '\t' (List.replicate 17 '\t')).length = COLUMNS.length ∧
    processLine (List.replicate 17 '\t') = [] ∧
    flushStep (List.replicate 17 '\t') ≠ [] ∧
    flushStep (List.replicate 17 '\t') ≠ processLine (List.replicate 17 '\t') := by
  refine ⟨by decide, by decide, by decide, by decide, by decide⟩

/-- C4 (amended): at end of input a non-empty remainder is emitted as one
JSON object plus newline exactly when its tab-split field count is 18, and
is otherwise discarded silently — the flush performs no whitespace-only
check and emits no warning.  It therefore agrees with per-line processing
exactly when being non-whitespace coincides with having 18 fields. -/
theorem c4_flush_behavior (rem : Str) (h : rem ≠ []) :
    ((splitOnChar '\t' rem).length = COLUMNS.length →
      flushStep rem =
        [Out.push (jsonStringify (COLUMNS.zip (splitOnChar '\t' rem)) ++ ['\n'])]) ∧
    ((splitOnChar '\t' rem).length ≠ COLUMNS.length → flushStep rem = []) ∧
    (flushStep rem = processLine rem ↔
      (jsTrim rem ≠ [] ↔ (splitOnChar '\t' rem).length = COLUMNS.length)) := by
  refine ⟨fun h2 => by simp [flushStep, h, h2], fun h2 => by simp [flushStep, h, h2], ?_⟩
  by_cases ht : jsTrim rem = [] <;>
    by_cases hl : (splitOnChar '\t' rem).length = COLUMNS.length <;>
    simp [flushStep, processLine, h, ht, hl]

/-! ## The offer synthesizer (generateOffers and helpers) -/

/-- One entry of the users collection of the mock dataset. -/
structure JsUser where
  name : Str
  email : Str
  avatarUrl : Str
  type : Str
deriving DecidableEq

/-- One city-center entry of the coordinates map. -/
structure Coord where
  latitude : ℚ
  longitude : ℚ
  radius : ℚ
deriving DecidableEq

/-- The MockServerData record assembled from the eight fetched resources;
the coordinates object is modelled as an association list. -/
structure MockServerData where
  titles : List Str
  descriptions : List Str
  cities : List Str
  previewImages : List Str
  propertyTypes : List Str
  features : List Str
  users : List JsUser
  coordinates : List (Str × Coord)
deriving DecidableEq

/-- Math.floor(Math.random() * (max - min + 1) + min), the Math.random draw
u passed explicitly. -/
def generateRandomNumber (min max : ℤ) (u : ℚ) : ℤ :=
  ⌊u * ((max : ℚ) - (min : ℚ) + 1) + (min : ℚ)⌋

/-- items[Math.floor(Math.random() * items.length)]; none models the
undefined an empty collection yields. -/
def getRandomItem {α : Type} (items : List α) (u : ℚ) : Option α :=
  items.get? (⌊u * (items.length : ℚ)⌋).toNat

/-- Shuffle-and-truncate sampling: the comparator-driven shuffle
[...items].sort of the source is modelled by passing its resulting
arrangement explicitly (theorems constrain it to be a permutation of the
collection); slice(0, count) is the truncation. -/
def getRandomItems {α : Type} (shuffled : List α) (count : ℤ) : List α :=
  shuffled.take count.toNat

/-- generateRandomLocation: offset the center by polar coordinates with
radius sqrt(U) times radius/111; the outputs of Math.sqrt(Math.random()),
Math.cos(angle) and Math.sin(angle) are the parameters sqrtU, cosA, sinA. -/
def generateRandomLocation (sqrtU cosA sinA : ℚ) (center : Coord) : ℚ × ℚ :=
  (center.latitude + (sqrtU * (center.radius / 111)) * cosA,
   center.longitude + (sqrtU * (center.radius / 111)) * sinA)

/-- The decimal digit character of d mod 10. -/
def digitChar (d : ℕ) : Char :=
  match d % 10 with
  | 0 => '0'
  | 1 => '1'
  | 2 => '2'
  | 3 => '3'
  | 4 => '4'
  | 5 => '5'
  | 6 => '6'
  | 7 => '7'
  | 8 => '8'
  | _ => '9'

/-- Decimal digits of a natural number, with fuel for structural recursion
(n + 1 division steps always suffice). -/
def natDigitsAux : ℕ → ℕ → Str
  | 0, _ => []
  | fuel + 1, n =>
    if n < 10 then [digitChar n]
    else natDigitsAux fuel (n / 10) ++ [digitChar n]

/-- String(n) for a nonnegative safe integer. -/
def natDigits (n : ℕ) : Str := natDigitsAux (n + 1) n

/-- String(i) for a safe integer. -/
def intToStr (i : ℤ) : Str :=
  if i < 0 then '-' :: natDigits (-i).toNat else natDigits i.toNat

/-- Left-pad a digit string with zeros to the given width. -/
def padZeros (width : ℕ) (s : Str) : Str :=
  List.replicate (width - s.length) '0' ++ s

/-- Number.prototype.toFixed(1): print the sign, then the absolute value
rounded to tenths (ties toward the larger scaled integer) with exactly one
fractional digit. -/
def toFixed1 (q : ℚ) : Str :=
  (if q < 0 then ['-'] else []) ++
    natDigits ((round (|q| * 10)).toNat / 10) ++
      '.' :: [digitChar (round (|q| * 10)).toNat]

/-- Number.prototype.toFixed(6): print the sign, then the absolute value
rounded to millionths with exactly six fractional digits. -/
def toFixed6 (q : ℚ) : Str :=
  (if q < 0 then ['-'] else []) ++
    natDigits ((round (|q| * 1000000)).toNat / 1000000) ++
      '.' :: padZeros 6 (natDigits ((round (|q| * 1000000)).toNat % 1000000))

/-- The strings Array.prototype.join produces for the booleans in the row. -/
def jsBool (b : Bool) : Str := if b then "true".toList else "false".toList

/-- The random draws consumed by one iteration of generateOffers, one field
per Math.random() call site; the two comparator-driven shuffles are
represented by their resulting arrangements. -/
structure OfferDraws where
  cityU : ℚ
  sqrtU : ℚ
  cosA : ℚ
  sinA : ℚ
  photosCountU : ℚ
  photosShuffled : List Str
  userU : ℚ
  titleU : ℚ
  descriptionU : ℚ
  previewImageU : ℚ
  premiumU : ℚ
  ratingU : ℚ
  typeU : ℚ
  roomsU : ℚ
  guestsU : ℚ
  priceU : ℚ
  featuresCountU : ℚ
  featuresShuffled : List Str
deriving DecidableEq

/-- The photos sample of one iteration: shuffle previewImages, truncate to a
count drawn in [3,6]. -/
def genPhotos (d : OfferDraws) : List Str :=
  getRandomItems d.photosShuffled (generateRandomNumber 3 6 d.photosCountU)

/-- The features sample of one iteration: shuffle features, truncate to a
count drawn in [2,6]. -/
def genFeatures (d : OfferDraws) : List Str :=
  getRandomItems d.featuresShuffled (generateRandomNumber 2 6 d.featuresCountU)

/-- rooms: an integer drawn in [1,5]. -/
def genRooms (d : OfferDraws) : ℤ := generateRandomNumber 1 5 d.roomsU

/-- guests: an integer drawn in [1,10]. -/
def genGuests (d : OfferDraws) : ℤ := generateRandomNumber 1 10 d.guestsU

/-- price: an integer drawn in [50,1000]. -/
def genPrice (d : OfferDraws) : ℤ := generateRandomNumber 50 1000 d.priceU

/-- The numeric value denoted by the rating string
(Math.random() * 2 + 3).toFixed(1): the draw scaled into [3,5) and rounded
to tenths. -/
def ratingValue (d : OfferDraws) : ℚ :=
  ((round ((d.ratingU * 2 + 3) * 10) : ℤ) : ℚ) / 10

/-- The offer object built by one generateOffers iteration, fields exactly
as the source computes them.  getRandomItem can yield undefined; the
Array.prototype.join of the row renders undefined as the empty string, which
is applied here at field construction. -/
structure GenOffer where
  title : Str
  description : Str
  city : Str
  previewImage : Str
  photos : Str
  isPremium : Bool
  rating : Str
  type : Str
  rooms : ℤ
  guests : ℤ
  price : ℤ
  features : Str
  authorName : Str
  authorEmail : Str
  authorAvatar : Str
  authorIsPro : Bool
  latitude : Str
  longitude : Str
deriving DecidableEq

/-- One iteration of the generateOffers loop.  none models the TypeError
the iteration throws: when the drawn city has no coordinates entry
(center.radius of undefined, which also covers an empty cities collection,
where coordinates[undefined] is undefined), or when the users collection is
empty (user.name of undefined). -/
def genOffer (data : MockServerData) (d : OfferDraws) : Option GenOffer := do
  let city ← getRandomItem data.cities d.cityU
  let cityCoords ← data.coordinates.lookup city
  let location := generateRandomLocation d.sqrtU d.cosA d.sinA cityCoords
  let user ← getRandomItem data.users d.userU
  pure {
    title := (getRandomItem data.titles d.titleU).getD []
    description := (getRandomItem data.descriptions d.descriptionU).getD []
    city := city
    previewImage := (getRandomItem data.previewImages d.previewImageU).getD []
    photos := joinSep ';' (genPhotos d)
    isPremium := decide (d.premiumU < 1 / 5)
    rating := toFixed1 (d.ratingU * 2 + 3)
    type := (getRandomItem data.propertyTypes d.typeU).getD []
    rooms := genRooms d
    guests := genGuests d
    price := genPrice d
    features := joinSep ';' (genFeatures d)
    authorName := user.name
    authorEmail := user.email
    authorAvatar := user.avatarUrl
    authorIsPro := decide (user.type = "pro".toList)
    latitude := toFixed6 location.1
    longitude := toFixed6 location.2 }

/-- The row yielded for one offer: the 18 fields in fixed order joined with
tabs, plus the trailing newline of the yielded template string. -/
def genRow (data : MockServerData) (d : OfferDraws) : Option Str :=
  (genOffer data d).map fun o =>
    joinSep '\t'
      [o.title, o.description, o.city, o.previewImage, o.photos,
       jsBool o.isPremium, o.rating, o.type, intToStr o.rooms,
       intToStr o.guests, intToStr o.price, o.features, o.authorName,
       o.authorEmail, o.authorAvatar, jsBool o.authorIsPro, o.latitude,
       o.longitude] ++ ['\n']

/-- generateOffers: count rows produced one per pull, the i-th from the
i-th bundle of draws; none if any iteration throws. -/
def generateOffers (data : MockServerData) (draws : ℕ → OfferDraws)
    (count : ℕ) : Option (List Str) :=
  (List.range count).mapM fun i => genRow data (draws i)

/-- A Math.random() draw: a value in [0, 1). -/
abbrev UnitDraw (u : ℚ) : Prop := 0 ≤ u ∧ u < 1

/-- Validity of one iteration's draws: every Math.random() value lies in
[0,1); the Math.sqrt output is the nonnegative square root of a unit draw;
the cosine and sine outputs satisfy the Pythagorean identity; the shuffles
are permutations of their source collections. -/
abbrev ValidDraws (data : MockServerData) (d : OfferDraws) : Prop :=
  UnitDraw d.cityU ∧ UnitDraw d.photosCountU ∧ UnitDraw d.userU ∧
  UnitDraw d.titleU ∧ UnitDraw d.descriptionU ∧ UnitDraw d.previewImageU ∧
  UnitDraw d.premiumU ∧ UnitDraw d.ratingU ∧ UnitDraw d.typeU ∧
  UnitDraw d.roomsU ∧ UnitDraw d.guestsU ∧ UnitDraw d.priceU ∧
  UnitDraw d.featuresCountU ∧
  (0 ≤ d.sqrtU ∧ d.sqrtU * d.sqrtU < 1) ∧
  d.cosA * d.cosA + d.sinA * d.sinA = 1 ∧
  d.photosShuffled.Perm data.previewImages ∧
  d.featuresShuffled.Perm data.features

theorem generateRandomNumber_bounds (lo hi : ℤ) (u : ℚ) (hu : UnitDraw u)
    (hle : lo ≤ hi) :
    lo ≤ generateRandomNumber lo hi u ∧ generateRandomNumber lo hi u ≤ hi := by
  obtain ⟨hu0, hu1⟩ := hu
  have hcast : (lo : ℚ) ≤ (hi : ℚ) := by exact_mod_cast hle
  have hk0 : (0 : ℚ) ≤ (hi : ℚ) - (lo : ℚ) + 1 := by linarith
  have hkpos : (0 : ℚ) < (hi : ℚ) - (lo : ℚ) + 1 := by linarith
  constructor
  · unfold generateRandomNumber
    rw [Int.le_floor]
    have hmul := mul_nonneg hu0 hk0
    linarith
  · unfold generateRandomNumber
    rw [← Int.lt_add_one_iff, Int.floor_lt]
    have hmul := mul_lt_mul_of_pos_right hu1 hkpos
    push_cast
    linarith

theorem ratingValue_bounds (d : OfferDraws) (hu : UnitDraw d.ratingU) :
    3 ≤ ratingValue d ∧ ratingValue d ≤ 5 ∧
      ratingValue d * 10 = ((round ((d.ratingU * 2 + 3) * 10) : ℤ) : ℚ) := by
  obtain ⟨h0, h1⟩ := hu
  have hn1 : (30 : ℤ) ≤ round ((d.ratingU * 2 + 3) * 10) := by
    rw [round_eq, Int.le_floor]
    push_cast
    linarith
  have hn2 : round ((d.ratingU * 2 + 3) * 10) ≤ 50 := by
    rw [round_eq, ← Int.lt_add_one_iff, Int.floor_lt]
    push_cast
    linarith
  have hc1 : (30 : ℚ) ≤ ((round ((d.ratingU * 2 + 3) * 10) : ℤ) : ℚ) := by
    exact_mod_cast hn1
  have hc2 : ((round ((d.ratingU * 2 + 3) * 10) : ℤ) : ℚ) ≤ 50 := by
    exact_mod_cast hn2
  unfold ratingValue
  refine ⟨by linarith, by linarith, by ring⟩

/-- C6 (amended): for every dataset and valid draws, the rating value lies
in [3.0, 5.0] with one fractional digit, price in [50,1000], rooms in
[1,5], guests in [1,10]; and provided the dataset offers at least 3 preview
images and at least 2 features, the sampled photos list has 3 to 6 elements
and the features list 2 to 6; the generated offer carries exactly these
components. -/
theorem c6_offer_bounds (data : MockServerData) (d : OfferDraws)
    (h : ValidDraws data d)
    (hp : 3 ≤ data.previewImages.length) (hf : 2 ≤ data.features.length) :
    (3 ≤ ratingValue d ∧ ratingValue d ≤ 5 ∧
      ∃ n : ℤ, ratingValue d * 10 = (n : ℚ)) ∧
    (50 ≤ genPrice d ∧ genPrice d ≤ 1000) ∧
    (1 ≤ genRooms d ∧ genRooms d ≤ 5) ∧
    (1 ≤ genGuests d ∧ genGuests d ≤ 10) ∧
    (3 ≤ (genPhotos d).length ∧ (genPhotos d).length ≤ 6) ∧
    (2 ≤ (genFeatures d).length ∧ (genFeatures d).length ≤ 6) ∧
    (∀ o, genOffer data d = some o →
      o.rating = toFixed1 (d.ratingU * 2 + 3) ∧ o.rooms = genRooms d ∧
      o.guests = genGuests d ∧ o.price = genPrice d ∧
      o.photos = joinSep ';' (genPhotos d) ∧
      o.features = joinSep ';' (genFeatures d)) := by
  obtain ⟨hcity, hpc, huser, ht, hde, hpi, hpr, hrat, hty, hro, hgu, hpri,
    hfc, hsq, htrig, hperm, hfperm⟩ := h
  obtain ⟨hr1, hr2, hr3⟩ := ratingValue_bounds d hrat
  refine ⟨⟨hr1, hr2, ⟨round ((d.ratingU * 2 + 3) * 10), hr3⟩⟩,
    generateRandomNumber_bounds 50 1000 d.priceU hpri (by decide),
    generateRandomNumber_bounds 1 5 d.roomsU hro (by decide),
    generateRandomNumber_bounds 1 10 d.guestsU hgu (by decide),
    ?_, ?_, ?_⟩
  · obtain ⟨hc1, hc2⟩ := generateRandomNumber_bounds 3 6 d.photosCountU hpc (by decide)
    have hlen : d.photosShuffled.length = data.previewImages.length :=
      hperm.length_eq
    unfold genPhotos getRandomItems
    rw [List.length_take]
    omega
  · obtain ⟨hc1, hc2⟩ := generateRandomNumber_bounds 2 6 d.featuresCountU hfc (by decide)
    have hlen : d.featuresShuffled.length = data.features.length :=
      hfperm.length_eq
    unfold genFeatures getRandomItems
    rw [List.length_take]
    omega
  · intro o ho
    unfold genOffer at ho
    cases h1 : getRandomItem data.cities d.cityU with
    | none => rw [h1] at ho; simp at ho
    | some city =>
      rw [h1] at ho
      simp only [Option.bind_eq_bind, Option.some_bind] at ho
      cases h2 : data.coordinates.lookup city with
      | none => rw [h2] at ho; simp at ho
      | some co =>
        rw [h2] at ho
        simp only [Option.some_bind] at ho
        cases h3 : getRandomItem data.users d.userU with
        | none => rw [h3] at ho; simp at ho
        | some user =>
          rw [h3] at ho
          simp only [Option.some_bind, Option.pure_def, Option.some.injEq] at ho
          subst ho
          exact ⟨rfl, rfl, rfl, rfl, rfl, rfl⟩

/-- Inversion of genOffer when all three fallible steps succeed. -/
theorem genOffer_eq (data : MockServerData) (d : OfferDraws) (city : Str)
    (co : Coord) (user : JsUser)
    (h1 : getRandomItem data.cities d.cityU = some city)
    (h2 : data.coordinates.lookup city = some co)
    (h3 : getRandomItem data.users d.userU = some user) :
    genOffer data d = some
      { title := (getRandomItem data.titles d.titleU).getD []
        description := (getRandomItem data.descriptions d.descriptionU).getD []
        city := city
        previewImage := (getRandomItem data.previewImages d.previewImageU).getD []
        photos := joinSep ';' (genPhotos d)
        isPremium := decide (d.premiumU < 1 / 5)
        rating := toFixed1 (d.ratingU * 2 + 3)
        type := (getRandomItem data.propertyTypes d.typeU).getD []
        rooms := genRooms d
        guests := genGuests d
        price := genPrice d
        features := joinSep ';' (genFeatures d)
        authorName := user.name
        authorEmail := user.email
        authorAvatar := user.avatarUrl
        authorIsPro := decide (user.type = "pro".toList)
        latitude := toFixed6 (generateRandomLocation d.sqrtU d.cosA d.sinA co).1
        longitude := toFixed6 (generateRandomLocation d.sqrtU d.cosA d.sinA co).2 } := by
  unfold genOffer
  simp only [h1, h2, h3, Option.bind_eq_bind, Option.some_bind, Option.pure_def]

/-- Drawing with Math.random() = 0 from a non-empty collection picks its
first element. -/
theorem getRandomItem_zero {α : Type} (a : α) (l : List α) :
    getRandomItem (a :: l) 0 = some a := by
  simp [getRandomItem]

/-- A dataset with a single preview image (and otherwise well-formed
collections), on which the photos sample cannot reach three elements. -/
def cexData : MockServerData where
  titles := ["T".toList]
  descriptions := ["D".toList]
  cities := ["X".toList]
  previewImages := ["p".toList]
  propertyTypes := ["apartment".toList]
  features := ["w".toList, "t".toList]
  users := [⟨"Jane".toList, "j@x.com".toList, "a.jpg".toList, "pro".toList⟩]
  coordinates := [("X".toList, ⟨1, 2, 3⟩)]

/-- A concrete valid bundle of draws (all Math.random() values 0, angle 0,
identity shuffles) matching cexData's collections. -/
def cexDraws : OfferDraws where
  cityU := 0
  sqrtU := 0
  cosA := 1
  sinA := 0
  photosCountU := 0
  photosShuffled := ["p".toList]
  userU := 0
  titleU := 0
  descriptionU := 0
  previewImageU := 0
  premiumU := 0
  ratingU := 0
  typeU := 0
  roomsU := 0
  guestsU := 0
  priceU := 0
  featuresCountU := 0
  featuresShuffled := ["w".toList, "t".toList]

/-- The all-zero draws are valid for cexData. -/
theorem cexDraws_valid : ValidDraws cexData cexDraws := by
  norm_num [UnitDraw, cexDraws, cexData, List.Perm.refl]

/-- C6 counterexample: on a dataset with one preview image, a generated
offer exists whose photos sample has exactly one element, outside [3,6];
the bounds therefore do not hold for every MockDataset. -/
theorem c6_counterexample :
    ValidDraws cexData cexDraws ∧
    (∃ o, genOffer cexData cexDraws = some o) ∧
    (genPhotos cexDraws).length = 1 := by
  have h5 : generateRandomNumber 3 6 (0 : ℚ) = 3 := by
    unfold generateRandomNumber
    norm_num
  refine ⟨cexDraws_valid,
    ⟨_, genOffer_eq cexData cexDraws ("X".toList) ⟨1, 2, 3⟩
      ⟨"Jane".toList, "j@x.com".toList, "a.jpg".toList, "pro".toList⟩
      (getRandomItem_zero _ _) rfl (getRandomItem_zero _ _)⟩, ?_⟩
  simp [genPhotos, getRandomItems, cexDraws, h5]

/-- A dataset identical to cexData except rich enough for the photos and
features samples (three preview images, two features). -/
def wData : MockServerData where
  titles := ["T".toList]
  descriptions := ["D".toList]
  cities := ["X".toList]
  previewImages := ["p1".toList, "p2".toList, "p3".toList]
  propertyTypes := ["apartment".toList]
  features := ["w".toList, "t".toList]
  users := [⟨"Jane".toList, "j@x.com".toList, "a.jpg".toList, "pro".toList⟩]
  coordinates := [("X".toList, ⟨1, 2, 3⟩)]

/-- Valid draws matching wData's collections. -/
def wDraws : OfferDraws where
  cityU := 0
  sqrtU := 0
  cosA := 1
  sinA := 0
  photosCountU := 0
  photosShuffled := ["p1".toList, "p2".toList, "p3".toList]
  userU := 0
  titleU := 0
  descriptionU := 0
  previewImageU := 0
  premiumU := 0
  ratingU := 0
  typeU := 0
  roomsU := 0
  guestsU := 0
  priceU := 0
  featuresCountU := 0
  featuresShuffled := ["w".toList, "t".toList]

/-- The all-zero draws are valid for wData. -/
theorem wDraws_valid : ValidDraws wData wDraws := by
  norm_num [UnitDraw, wDraws, wData, List.Perm.refl]

theorem c6_witness :
    (3 ≤ ratingValue wDraws ∧ ratingValue wDraws ≤ 5 ∧
      ∃ n : ℤ, ratingValue wDraws * 10 = (n : ℚ)) ∧
    (50 ≤ genPrice wDraws ∧ genPrice wDraws ≤ 1000) ∧
    (1 ≤ genRooms wDraws ∧ genRooms wDraws ≤ 5) ∧
    (1 ≤ genGuests wDraws ∧ genGuests wDraws ≤ 10) ∧
    (3 ≤ (genPhotos wDraws).length ∧ (genPhotos wDraws).length ≤ 6) ∧
    (2 ≤ (genFeatures wDraws).length ∧ (genFeatures wDraws).length ≤ 6) ∧
    (∀ o, genOffer wData wDraws = some o →
      o.rating = toFixed1 (wDraws.ratingU * 2 + 3) ∧ o.rooms = genRooms wDraws ∧
      o.guests = genGuests wDraws ∧ o.price = genPrice wDraws ∧
      o.photos = joinSep ';' (genPhotos wDraws) ∧
      o.features = joinSep ';' (genFeatures wDraws)) :=
  c6_offer_bounds wData wDraws wDraws_valid (by norm_num [wData]) (by norm_num [wData])

/-- C7: for every city-center entry and every draw
(U in [0,1), sqrtU its nonnegative square root, cosA and sinA on the unit
circle), the generated location lies within the configured radius of the
center under the 1 degree = 111 km conversion: the squared Euclidean norm
of the offset in degrees is at most (radius/111) squared. -/
theorem c7_location_in_radius (center : Coord) (u sqrtU cosA sinA : ℚ)
    (hu : UnitDraw u)
    (hs : 0 ≤ sqrtU ∧ sqrtU * sqrtU = u)
    (htrig : cosA * cosA + sinA * sinA = 1) :
    ((generateRandomLocation sqrtU cosA sinA center).1 - center.latitude) ^ 2 +
      ((generateRandomLocation sqrtU cosA sinA center).2 - center.longitude) ^ 2 ≤
      (center.radius / 111) ^ 2 := by
  obtain ⟨hs0, hs2⟩ := hs
  obtain ⟨hu0, hu1⟩ := hu
  unfold generateRandomLocation
  have hgoal :
      ((center.latitude + sqrtU * (center.radius / 111) * cosA) - center.latitude) ^ 2 +
        ((center.longitude + sqrtU * (center.radius / 111) * sinA) - center.longitude) ^ 2 =
        u * (center.radius / 111) ^ 2 := by
    have expand :
        ((center.latitude + sqrtU * (center.radius / 111) * cosA) - center.latitude) ^ 2 +
          ((center.longitude + sqrtU * (center.radius / 111) * sinA) - center.longitude) ^ 2 =
          (sqrtU * sqrtU) * (center.radius / 111) ^ 2 * (cosA * cosA + sinA * sinA) := by
      ring
    rw [expand, htrig, hs2]
    ring
  simp only
  rw [hgoal]
  exact mul_le_of_le_one_left (sq_nonneg _) (le_of_lt hu1)

theorem c7_witness :
    ((generateRandomLocation (3 / 4) (3 / 5) (4 / 5) ⟨0, 0, 111⟩).1 -
        (Coord.mk 0 0 111).latitude) ^ 2 +
      ((generateRandomLocation (3 / 4) (3 / 5) (4 / 5) ⟨0, 0, 111⟩).2 -
        (Coord.mk 0 0 111).longitude) ^ 2 ≤
      ((Coord.mk 0 0 111).radius / 111) ^ 2 :=
  c7_location_in_radius ⟨0, 0, 111⟩ (9 / 16) (3 / 4) (3 / 5) (4 / 5)
    ⟨by norm_num, by norm_num⟩ ⟨by norm_num, by norm_num⟩ (by norm_num)

theorem c4_witness :
    (['x'] : Str) ≠ [] ∧
    (((splitOnChar '\t' ['x']).length = COLUMNS.length →
      flushStep ['x'] =
        [Out.push (jsonStringify (COLUMNS.zip (splitOnChar '\t' ['x'])) ++ ['\n'])]) ∧
    ((splitOnChar '\t' ['x']).length ≠ COLUMNS.length → flushStep ['x'] = []) ∧
    (flushStep ['x'] = processLine ['x'] ↔
      (jsTrim ['x'] ≠ [] ↔ (splitOnChar '\t' ['x']).length = COLUMNS.length))) :=
  ⟨by decide, c4_flush_behavior ['x'] (by decide)⟩

/-! ## Cleanliness of generated fields (tab- and newline-freeness) -/

/-- A string that cannot disturb the framing of a row: free of tabs and
newlines. -/
abbrev CleanStr (s : Str) : Prop := ∀ c ∈ s, c ≠ '\t' ∧ c ≠ '\n'

/-- Every string in the dataset is tab- and newline-free. -/
abbrev CleanData (data : MockServerData) : Prop :=
  (∀ s ∈ data.titles, CleanStr s) ∧ (∀ s ∈ data.descriptions, CleanStr s) ∧
  (∀ s ∈ data.cities, CleanStr s) ∧ (∀ s ∈ data.previewImages, CleanStr s) ∧
  (∀ s ∈ data.propertyTypes, CleanStr s) ∧
  (∀ u ∈ data.users, CleanStr u.name ∧ CleanStr u.email ∧ CleanStr u.avatarUrl) ∧
  (∀ s ∈ data.features, CleanStr s)

theorem cleanStr_nil : CleanStr [] := by intro c hc; cases hc

theorem cleanStr_append (s t : Str) (hs : CleanStr s) (ht : CleanStr t) :
    CleanStr (s ++ t) := by
  intro c hc
  rcases List.mem_append.mp hc with h | h
  · exact hs c h
  · exact ht c h

theorem cleanStr_cons (c : Char) (s : Str) (hc : c ≠ '\t' ∧ c ≠ '\n')
    (hs : CleanStr s) : CleanStr (c :: s) := by
  intro x hx
  rcases List.mem_cons.mp hx with rfl | h
  · exact hc
  · exact hs x h

theorem cleanStr_digitChar (d : ℕ) : CleanStr [digitChar d] := by
  intro c hc
  rw [List.mem_singleton] at hc
  subst hc
  unfold digitChar
  split <;> decide

theorem cleanStr_natDigitsAux (fuel n : ℕ) : CleanStr (natDigitsAux fuel n) := by
  induction fuel generalizing n with
  | zero => exact cleanStr_nil
  | succ f ih =>
    unfold natDigitsAux
    split
    · exact cleanStr_digitChar _
    · exact cleanStr_append _ _ (ih _) (cleanStr_digitChar _)

theorem cleanStr_natDigits (n : ℕ) : CleanStr (natDigits n) :=
  cleanStr_natDigitsAux _ _

theorem cleanStr_intToStr (i : ℤ) : CleanStr (intToStr i) := by
  unfold intToStr
  split
  · exact cleanStr_cons _ _ (by decide) (cleanStr_natDigits _)
  · exact cleanStr_natDigits _

theorem cleanStr_sign (q : ℚ) : CleanStr (if q < 0 then ['-'] else []) := by
  split
  · intro c hc; rw [List.mem_singleton] at hc; subst hc; decide
  · exact cleanStr_nil

theorem cleanStr_padZeros (w : ℕ) (s : Str) (hs : CleanStr s) :
    CleanStr (padZeros w s) := by
  refine cleanStr_append _ _ ?_ hs
  intro c hc
  have := List.eq_of_mem_replicate hc
  subst this
  decide

theorem cleanStr_toFixed1 (q : ℚ) : CleanStr (toFixed1 q) := by
  unfold toFixed1
  exact cleanStr_append _ _
    (cleanStr_append _ _ (cleanStr_sign q) (cleanStr_natDigits _))
    (cleanStr_cons '.' _ (by decide) (cleanStr_digitChar _))

theorem cleanStr_toFixed6 (q : ℚ) : CleanStr (toFixed6 q) := by
  unfold toFixed6
  exact cleanStr_append _ _
    (cleanStr_append _ _ (cleanStr_sign q) (cleanStr_natDigits _))
    (cleanStr_cons '.' _ (by decide) (cleanStr_padZeros _ _ (cleanStr_natDigits _)))

theorem cleanStr_jsBool (b : Bool) : CleanStr (jsBool b) := by
  cases b <;> exact (by decide)

/-- Characters of a join are the separator or characters of the fields. -/
theorem mem_joinSep (sep : Char) (ls : List Str) (c : Char)
    (h : c ∈ joinSep sep ls) : c = sep ∨ ∃ l ∈ ls, c ∈ l := by
  induction ls with
  | nil => cases h
  | cons l ls ih =>
    cases ls with
    | nil => exact .inr ⟨l, by simp, by simpa using h⟩
    | cons l2 ls2 =>
      rw [joinSep_cons₂] at h
      rcases List.mem_append.mp h with h1 | h1
      · exact .inr ⟨l, by simp, h1⟩
      · rcases List.mem_cons.mp h1 with rfl | h2
        · exact .inl rfl
        · rcases ih h2 with h3 | ⟨m, hm, hc⟩
          · exact .inl h3
          · exact .inr ⟨m, List.mem_cons_of_mem _ hm, hc⟩

theorem cleanStr_joinSep_semi (ls : List Str) (h : ∀ l ∈ ls, CleanStr l) :
    CleanStr (joinSep ';' ls) := by
  intro c hc
  rcases mem_joinSep ';' ls c hc with rfl | ⟨l, hl, hcl⟩
  · decide
  · exact h l hl c hcl

theorem tab_not_mem_of_clean (s : Str) (h : CleanStr s) : '\t' ∉ s :=
  fun hm => (h _ hm).1 rfl

theorem nl_not_mem_of_clean (s : Str) (h : CleanStr s) : '\n' ∉ s :=
  fun hm => (h _ hm).2 rfl

theorem cleanStr_getRandomItem_getD (l : List Str) (u : ℚ)
    (h : ∀ s ∈ l, CleanStr s) : CleanStr ((getRandomItem l u).getD []) := by
  cases hg : getRandomItem l u with
  | none => simpa using cleanStr_nil
  | some a =>
    have ha : a ∈ l := List.get?_mem hg
    simpa using h a ha

/-- Joining clean fields splits back into exactly those fields, and the
result contains no newline. -/
theorem row_fields (fields : List Str) (hne : fields ≠ [])
    (hclean : ∀ f ∈ fields, CleanStr f) :
    splitOnChar '\t' (joinSep '\t' fields) = fields ∧
    '\n' ∉ joinSep '\t' fields := by
  constructor
  · exact splitOnChar_joinSep '\t' fields hne
      (fun l hl => tab_not_mem_of_clean l (hclean l hl))
  · intro hmem
    rcases mem_joinSep '\t' fields '\n' hmem with h | ⟨l, hl, hc⟩
    · exact absurd h (by decide)
    · exact (hclean l hl _ hc).2 rfl

/-- A uniform draw from a non-empty collection yields some element of it. -/
theorem getRandomItem_mem {α : Type} (items : List α) (u : ℚ)
    (hne : items ≠ []) (hu : UnitDraw u) :
    ∃ a, getRandomItem items u = some a ∧ a ∈ items := by
  have hlen : 0 < items.length := List.length_pos.mpr hne
  have hlt : ⌊u * (items.length : ℚ)⌋ < items.length := by
    apply Int.floor_lt.mpr
    push_cast
    have := mul_lt_mul_of_pos_right hu.2
      (show (0 : ℚ) < items.length by exact_mod_cast hlen)
    linarith
  have hidx : (⌊u * (items.length : ℚ)⌋).toNat < items.length := by omega
  cases hg : items.get? (⌊u * (items.length : ℚ)⌋).toNat with
  | none =>
    rw [List.get?_eq_none] at hg
    omega
  | some a => exact ⟨a, hg, List.get?_mem hg⟩

/-- The 18 field strings of a successfully generated row, in wire order. -/
def genFields (data : MockServerData) (d : OfferDraws) (city : Str)
    (co : Coord) (user : JsUser) : List Str :=
  [(getRandomItem data.titles d.titleU).getD [],
   (getRandomItem data.descriptions d.descriptionU).getD [],
   city,
   (getRandomItem data.previewImages d.previewImageU).getD [],
   joinSep ';' (genPhotos d),
   jsBool (decide (d.premiumU < 1 / 5)),
   toFixed1 (d.ratingU * 2 + 3),
   (getRandomItem data.propertyTypes d.typeU).getD [],
   intToStr (genRooms d),
   intToStr (genGuests d),
   intToStr (genPrice d),
   joinSep ';' (genFeatures d),
   user.name, user.email, user.avatarUrl,
   jsBool (decide (user.type = "pro".toList)),
   toFixed6 (generateRandomLocation d.sqrtU d.cosA d.sinA co).1,
   toFixed6 (generateRandomLocation d.sqrtU d.cosA d.sinA co).2]

/-- Inversion of genRow when all three fallible steps succeed. -/
theorem genRow_eq (data : MockServerData) (d : OfferDraws) (city : Str)
    (co : Coord) (user : JsUser)
    (h1 : getRandomItem data.cities d.cityU = some city)
    (h2 : data.coordinates.lookup city = some co)
    (h3 : getRandomItem data.users d.userU = some user) :
    genRow data d = some (joinSep '\t' (genFields data d city co user) ++ ['\n']) := by
  unfold genRow
  rw [genOffer_eq data d city co user h1 h2 h3]
  rfl

/-- All 18 fields of a generated row are clean for a clean dataset. -/
theorem genFields_clean (data : MockServerData) (d : OfferDraws) (city : Str)
    (co : Coord) (user : JsUser)
    (hperm : d.photosShuffled.Perm data.previewImages)
    (hfperm : d.featuresShuffled.Perm data.features)
    (hclean : CleanData data)
    (hcity : city ∈ data.cities) (huser : user ∈ data.users) :
    ∀ f ∈ genFields data d city co user, CleanStr f := by
  obtain ⟨hct, hcd, hcc, hcp, hcpt, hcu, hcf⟩ := hclean
  obtain ⟨hn, he, ha⟩ := hcu user huser
  have hphotos : ∀ p ∈ genPhotos d, CleanStr p := by
    intro p hp
    have hp2 : p ∈ d.photosShuffled := List.take_subset _ _ hp
    exact hcp p (hperm.mem_iff.mp hp2)
  have hfeat : ∀ p ∈ genFeatures d, CleanStr p := by
    intro p hp
    have hp2 : p ∈ d.featuresShuffled := List.take_subset _ _ hp
    exact hcf p (hfperm.mem_iff.mp hp2)
  intro f hf
  simp only [genFields, List.mem_cons, List.not_mem_nil, or_false] at hf
  rcases hf with rfl | rfl | rfl | rfl | rfl | rfl | rfl | rfl | rfl | rfl |
    rfl | rfl | rfl | rfl | rfl | rfl | rfl | rfl
  · exact cleanStr_getRandomItem_getD _ _ hct
  · exact cleanStr_getRandomItem_getD _ _ hcd
  · exact hcc _ hcity
  · exact cleanStr_getRandomItem_getD _ _ hcp
  · exact cleanStr_joinSep_semi _ hphotos
  · exact cleanStr_jsBool _
  · exact cleanStr_toFixed1 _
  · exact cleanStr_getRandomItem_getD _ _ hcpt
  · exact cleanStr_intToStr _
  · exact cleanStr_intToStr _
  · exact cleanStr_intToStr _
  · exact cleanStr_joinSep_semi _ hfeat
  · exact hn
  · exact he
  · exact ha
  · exact cleanStr_jsBool _
  · exact cleanStr_toFixed6 _
  · exact cleanStr_toFixed6 _

/-- A successfully generated row from a clean dataset is a newline-free
18-field body plus a trailing newline. -/
theorem genRow_spec (data : MockServerData) (d : OfferDraws)
    (hperm : d.photosShuffled.Perm data.previewImages)
    (hfperm : d.featuresShuffled.Perm data.features)
    (hclean : CleanData data)
    (hcityU : UnitDraw d.cityU) (huserU : UnitDraw d.userU)
    (hcities : data.cities ≠ [])
    (hcoords : ∀ c ∈ data.cities, (data.coordinates.lookup c).isSome)
    (husers : data.users ≠ []) :
    ∃ body, genRow data d = some (body ++ ['\n']) ∧ '\n' ∉ body ∧
      (splitOnChar '\t' body).length = 18 := by
  obtain ⟨city, hcityEq, hcityMem⟩ := getRandomItem_mem data.cities d.cityU hcities hcityU
  obtain ⟨co, hco⟩ := Option.isSome_iff_exists.mp (hcoords city hcityMem)
  obtain ⟨user, huserEq, huserMem⟩ := getRandomItem_mem data.users d.userU husers huserU
  have hfclean := genFields_clean data d city co user hperm hfperm hclean hcityMem huserMem
  obtain ⟨hsplit, hnl⟩ := row_fields (genFields data d city co user)
    (by simp [genFields]) hfclean
  refine ⟨joinSep '\t' (genFields data d city co user),
    genRow_eq data d city co user hcityEq hco huserEq, hnl, ?_⟩
  rw [hsplit]
  rfl

/-- mapM over Option succeeds elementwise, preserving length and sources. -/
theorem mapM_option_spec {α β : Type} (l : List α) (f : α → Option β)
    (h : ∀ x ∈ l, ∃ b, f x = some b) :
    ∃ r, l.mapM f = some r ∧ r.length = l.length ∧
      ∀ y ∈ r, ∃ x ∈ l, f x = some y := by
  induction l with
  | nil => exact ⟨[], rfl, rfl, by simp⟩
  | cons a as ih =>
    obtain ⟨b, hb⟩ := h a (by simp)
    obtain ⟨r, hr, hlen, hmem⟩ := ih (fun x hx => h x (List.mem_cons_of_mem _ hx))
    refine ⟨b :: r, ?_, by simp [hlen], ?_⟩
    · rw [List.mapM_cons, hb, hr]
      rfl
    · intro y hy
      rcases List.mem_cons.mp hy with rfl | hy2
      · exact ⟨a, by simp, hb⟩
      · obtain ⟨x, hx, hfx⟩ := hmem y hy2
        exact ⟨x, List.mem_cons_of_mem _ hx, hfx⟩

/-- C5 (amended): for every dataset whose strings are tab- and newline-free,
whose cities and users are non-empty, and whose every city has a coordinate
entry, and for every count and valid draws, generateOffers yields exactly
count rows, each a newline-terminated, newline-free body with exactly 18
tab-separated fields. -/
theorem c5_generated_lines (data : MockServerData) (draws : ℕ → OfferDraws)
    (count : ℕ)
    (hvalid : ∀ i, i < count → ValidDraws data (draws i))
    (hclean : CleanData data)
    (hcities : data.cities ≠ [])
    (hcoords : ∀ c ∈ data.cities, (data.coordinates.lookup c).isSome)
    (husers : data.users ≠ []) :
    ∃ rows, generateOffers data draws count = some rows ∧
      rows.length = count ∧
      ∀ row ∈ rows, ∃ body, row = body ++ ['\n'] ∧ '\n' ∉ body ∧
        (splitOnChar '\t' body).length = 18 := by
  have hstep : ∀ i, i < count →
      ∃ body, genRow data (draws i) = some (body ++ ['\n']) ∧ '\n' ∉ body ∧
        (splitOnChar '\t' body).length = 18 := by
    intro i hi
    obtain ⟨h1, h2, h3, _, _, _, _, _, _, _, _, _, _, _, _, h16, h17⟩ := hvalid i hi
    exact genRow_spec data (draws i) h16 h17 hclean h1 h3 hcities hcoords husers
  have hrow : ∀ i ∈ List.range count, ∃ b, genRow data (draws i) = some b := by
    intro i hi
    rw [List.mem_range] at hi
    obtain ⟨body, hb, _, _⟩ := hstep i hi
    exact ⟨body ++ ['\n'], hb⟩
  obtain ⟨rows, hrows, hlen, hmem⟩ :=
    mapM_option_spec (List.range count) (fun i => genRow data (draws i)) hrow
  refine ⟨rows, hrows, by simpa using hlen, ?_⟩
  intro row hr
  obtain ⟨i, hi, hfi⟩ := hmem row hr
  rw [List.mem_range] at hi
  obtain ⟨body, hb, hn, hl⟩ := hstep i hi
  have : row = body ++ ['\n'] := by
    rw [hb] at hfi
    exact (Option.some.inj hfi).symm
  exact ⟨body, this, hn, hl⟩

/-- The number of fields of a split is the separator count plus one. -/
theorem splitOnChar_length_eq_count (sep : Char) (s : Str) :
    (splitOnChar sep s).length = s.count sep + 1 := by
  induction s with
  | nil => simp [splitOnChar_nil]
  | cons c rest ih =>
    rw [splitOnChar_cons]
    by_cases hc : c = sep
    · rw [if_pos hc]
      simp [List.count_cons, hc, ih]
    · rw [if_neg hc]
      cases h : splitOnChar sep rest with
      | nil => exact absurd h (splitOnChar_ne_nil sep rest)
      | cons m ms =>
        rw [h] at ih
        simp only [consFirst_cons, List.length_cons, List.count_cons] at ih ⊢
        simp [hc]
        omega

/-- The separator count of a join: the fields' counts plus the inserted
separators. -/
theorem count_joinSep (sep : Char) (ls : List Str) :
    (joinSep sep ls).count sep =
      (ls.map (·.count sep)).sum + (ls.length - 1) := by
  induction ls with
  | nil => simp
  | cons l ls ih =>
    cases ls with
    | nil => simp
    | cons l2 ls2 =>
      rw [joinSep_cons₂, List.count_append, List.count_cons]
      simp only [List.map_cons, List.sum_cons, List.length_cons] at ih ⊢
      simp [ih]
      omega

/-- A sum of tab counts over clean fields vanishes. -/
theorem sum_counts_zero (ls : List Str) (h : ∀ f ∈ ls, CleanStr f) :
    (ls.map (·.count '\t')).sum = 0 := by
  apply List.sum_eq_zero
  intro x hx
  rw [List.mem_map] at hx
  obtain ⟨f, hf, rfl⟩ := hx
  exact List.count_eq_zero.mpr (tab_not_mem_of_clean f (h f hf))

/-- The dataset of cexData with a tab character inside its single title. -/
def cexDataTab : MockServerData where
  titles := ["a\tb".toList]
  descriptions := ["D".toList]
  cities := ["X".toList]
  previewImages := ["p".toList]
  propertyTypes := ["apartment".toList]
  features := ["w".toList, "t".toList]
  users := [⟨"Jane".toList, "j@x.com".toList, "a.jpg".toList, "pro".toList⟩]
  coordinates := [("X".toList, ⟨1, 2, 3⟩)]

/-- The all-zero draws are valid for cexDataTab. -/
theorem cexDrawsTab_valid : ValidDraws cexDataTab cexDraws := by
  norm_num [UnitDraw, cexDraws, cexDataTab, List.Perm.refl]

/-- C5 counterexample: with a dataset whose title contains a tab character,
generateOffers yields its rows, but the single row's body splits into 19
tab-separated fields rather than 18; the claim fails for this MockDataset. -/
theorem c5_counterexample :
    ValidDraws cexDataTab cexDraws ∧
    ∃ rows, generateOffers cexDataTab (fun _ => cexDraws) 1 = some rows ∧
      rows.length = 1 ∧
      ∀ row ∈ rows, ∀ body, row = body ++ ['\n'] →
        (splitOnChar '\t' body).length = 19 := by
  refine ⟨cexDrawsTab_valid, ?_⟩
  have hcity : getRandomItem cexDataTab.cities cexDraws.cityU = some ("X".toList) :=
    getRandomItem_zero _ _
  have huser : getRandomItem cexDataTab.users cexDraws.userU =
      some ⟨"Jane".toList, "j@x.com".toList, "a.jpg".toList, "pro".toList⟩ :=
    getRandomItem_zero _ _
  have hrow := genRow_eq cexDataTab cexDraws ("X".toList) ⟨1, 2, 3⟩
    ⟨"Jane".toList, "j@x.com".toList, "a.jpg".toList, "pro".toList⟩ hcity rfl huser
  refine ⟨[joinSep '\t' (genFields cexDataTab cexDraws ("X".toList) ⟨1, 2, 3⟩
      ⟨"Jane".toList, "j@x.com".toList, "a.jpg".toList, "pro".toList⟩) ++ ['\n']],
    ?_, rfl, ?_⟩
  · show (List.range 1).mapM (fun i => genRow cexDataTab cexDraws) = _
    rw [show List.range 1 = [0] from rfl, List.mapM_cons, hrow]
    rfl
  · intro row hr body hb
    rw [List.mem_singleton] at hr
    subst hr
    have hbody : body = joinSep '\t' (genFields cexDataTab cexDraws ("X".toList)
        ⟨1, 2, 3⟩ ⟨"Jane".toList, "j@x.com".toList, "a.jpg".toList, "pro".toList⟩) :=
      List.append_cancel_right hb.symm
    subst hbody
    rw [splitOnChar_length_eq_count, count_joinSep]
    have htitle : (getRandomItem cexDataTab.titles cexDraws.titleU).getD [] =
        "a\tb".toList := by
      rw [show cexDataTab.titles = ["a\tb".toList] from rfl,
        show cexDraws.titleU = (0 : ℚ) from rfl, getRandomItem_zero]
      rfl
    have hc0 : ((getRandomItem cexDataTab.titles cexDraws.titleU).getD []).count '\t' = 1 := by
      rw [htitle]
      decide
    have htail : ∀ f ∈ (genFields cexDataTab cexDraws ("X".toList) ⟨1, 2, 3⟩
        ⟨"Jane".toList, "j@x.com".toList, "a.jpg".toList, "pro".toList⟩).tail,
        CleanStr f := by
      have hphotos : ∀ p ∈ genPhotos cexDraws, CleanStr p := fun p hp =>
        (show ∀ s ∈ cexDraws.photosShuffled, CleanStr s by decide) p
          (List.take_subset _ _ hp)
      have hfeat : ∀ p ∈ genFeatures cexDraws, CleanStr p := fun p hp =>
        (show ∀ s ∈ cexDraws.featuresShuffled, CleanStr s by decide) p
          (List.take_subset _ _ hp)
      intro f hf
      simp only [genFields, List.tail_cons, List.mem_cons, List.not_mem_nil,
        or_false] at hf
      rcases hf with rfl | rfl | rfl | rfl | rfl | rfl | rfl | rfl | rfl |
        rfl | rfl | rfl | rfl | rfl | rfl | rfl | rfl
      · exact cleanStr_getRandomItem_getD _ _ (by decide)
      · exact (by decide)
      · exact cleanStr_getRandomItem_getD _ _ (by decide)
      · exact cleanStr_joinSep_semi _ hphotos
      · exact cleanStr_jsBool _
      · exact cleanStr_toFixed1 _
      · exact cleanStr_getRandomItem_getD _ _ (by decide)
      · exact cleanStr_intToStr _
      · exact cleanStr_intToStr _
      · exact cleanStr_intToStr _
      · exact cleanStr_joinSep_semi _ hfeat
      · exact (by decide)
      · exact (by decide)
      · exact (by decide)
      · exact cleanStr_jsBool _
      · exact cleanStr_toFixed6 _
      · exact cleanStr_toFixed6 _
    have hsum := sum_counts_zero _ htail
    rw [show genFields cexDataTab cexDraws ("X".toList) ⟨1, 2, 3⟩
        ⟨"Jane".toList, "j@x.com".toList, "a.jpg".toList, "pro".toList⟩ =
      ((getRandomItem cexDataTab.titles cexDraws.titleU).getD []) ::
        (genFields cexDataTab cexDraws ("X".toList) ⟨1, 2, 3⟩
          ⟨"Jane".toList, "j@x.com".toList, "a.jpg".toList, "pro".toList⟩).tail
      from rfl]
    rw [List.map_cons, List.sum_cons, hc0, hsum]
    rfl

theorem c5_witness :
    ∃ rows, generateOffers wData (fun _ => wDraws) 2 = some rows ∧
      rows.length = 2 ∧
      ∀ row ∈ rows, ∃ body, row = body ++ ['\n'] ∧ '\n' ∉ body ∧
        (splitOnChar '\t' body).length = 18 :=
  c5_generated_lines wData (fun _ => wDraws) 2 (fun _ _ => wDraws_valid)
    (by decide) (by decide) (by decide) (by decide)

/-! ## The mock-data fetch phase of handleGenerateCommand -/

/-- The eight resource names requested from the mock server. -/
def resourceNames : List Str :=
  ["titles", "descriptions", "cities", "previewImages", "propertyTypes",
   "features", "users", "coordinates"].map String.toList

/-- The request target for each resource: url/resource. -/
def fetchPaths (url : Str) : List Str :=
  resourceNames.map fun r => url ++ '/' :: r

/-- The settled outcomes of the eight concurrent got(...).json() calls:
each either a fetch error E or its parsed payload.  The source casts the
untyped payloads to MockServerData without validation, so each payload is
modelled at the type the cast asserts. -/
structure FetchResults (E : Type) where
  titles : Except E (List Str)
  descriptions : Except E (List Str)
  cities : Except E (List Str)
  previewImages : Except E (List Str)
  propertyTypes : Except E (List Str)
  features : Except E (List Str)
  users : Except E (List JsUser)
  coordinates : Except E (List (Str × Coord))

/-- Promise.all over the eight requests followed by assembly of the
MockServerData record: the dataset exists only if every request succeeded,
and any failure propagates as the fetch error (Promise.all rejects with the
first-settling rejection; the model determinizes to field order). -/
def fetchMockData {E : Type} (r : FetchResults E) : Except E MockServerData := do
  let titles ← r.titles
  let descriptions ← r.descriptions
  let cities ← r.cities
  let previewImages ← r.previewImages
  let propertyTypes ← r.propertyTypes
  let features ← r.features
  let users ← r.users
  let coordinates ← r.coordinates
  pure { titles := titles, descriptions := descriptions, cities := cities,
         previewImages := previewImages, propertyTypes := propertyTypes,
         features := features, users := users, coordinates := coordinates }

/-- C8: exactly eight pairwise distinct read requests url/resource are
issued; the fetch phase yields a dataset exactly when all eight responses
succeeded (its success bit is the conjunction of the eight responses'
success bits, so any failure propagates as the fetch error and no partial
dataset exists), and on success it assembles exactly the eight payloads. -/
theorem c8_fetch_all_or_nothing :
    (∀ url : Str, (fetchPaths url).length = 8 ∧ (fetchPaths url).Nodup) ∧
    (∀ (E : Type) (r : FetchResults E),
      (fetchMockData r).isOk =
        (r.titles.isOk && r.descriptions.isOk && r.cities.isOk &&
         r.previewImages.isOk && r.propertyTypes.isOk && r.features.isOk &&
         r.users.isOk && r.coordinates.isOk)) ∧
    (∀ (E : Type) (t d c pi pt f : List Str) (u : List JsUser)
        (co : List (Str × Coord)),
      fetchMockData (E := E) ⟨.ok t, .ok d, .ok c, .ok pi, .ok pt, .ok f, .ok u, .ok co⟩ =
        .ok ⟨t, d, c, pi, pt, f, u, co⟩) := by
  refine ⟨?_, ?_, ?_⟩
  · intro url
    constructor
    · simp [fetchPaths, resourceNames]
    · apply List.Nodup.map
      · intro x y hxy
        have h2 := List.append_cancel_left hxy
        exact List.tail_eq_of_cons_eq h2
      · decide
  · intro E r
    obtain ⟨t, d, c, pi, pt, f, u, co⟩ := r
    cases t <;> cases d <;> cases c <;> cases pi <;> cases pt <;> cases f <;>
      cases u <;> cases co <;> rfl
  · intro E t d c pi pt f u co
    rfl

/-! ## The non-streaming importer of src/cli/cli.ts -/

/-- The author sub-object built by the cli.ts importer. -/
structure ImportedAuthor where
  name : Option Str
  email : Option Str
  avatarUrl : Option Str
  isPro : Bool
deriving DecidableEq

/-- The location sub-object built by the cli.ts importer.  The Number()
conversions of its fields are total (undefined becomes NaN), so the raw
optional strings are kept. -/
structure ImportedLocation where
  latitude : Option Str
  longitude : Option Str
deriving DecidableEq

/-- The record built per row by the cli.ts importer.  Fields destructured
from row.split('\t') may be undefined (none); the Number() conversions of
rating, rooms, guests and price are total and keep their raw optional
strings here. -/
structure ImportedOffer where
  title : Option Str
  description : Option Str
  city : Option Str
  previewImage : Option Str
  photos : List Str
  isPremium : Bool
  rating : Option Str
  type : Option Str
  rooms : Option Str
  guests : Option Str
  price : Option Str
  features : List Str
  author : ImportedAuthor
  location : ImportedLocation
deriving DecidableEq

/-- One row of the cli.ts importer: split on tabs, destructure the 18
names, build the offer object.  In the object literal, photos.split(';') is
the first evaluated expression that can throw: it throws a TypeError when
the row has fewer than 5 tab fields (photos undefined), then
features.split(';') throws at fewer than 12.  The thrown TypeError is the
error case. -/
def parseRow (row : Str) : Except Str ImportedOffer :=
  let fs := splitOnChar '\t' row
  match fs.get? 4, fs.get? 11 with
  | none, _ => .error ("TypeError: undefined photos".toList)
  | some _, none => .error ("TypeError: undefined features".toList)
  | some photos, some features =>
    .ok { title := fs.get? 0
          description := fs.get? 1
          city := fs.get? 2
          previewImage := fs.get? 3
          photos := splitOnChar ';' photos
          isPremium := decide (fs.get? 5 = some ("true".toList))
          rating := fs.get? 6
          type := fs.get? 7
          rooms := fs.get? 8
          guests := fs.get? 9
          price := fs.get? 10
          features := splitOnChar ';' features
          author := { name := fs.get? 12, email := fs.get? 13,
                      avatarUrl := fs.get? 14,
                      isPro := decide (fs.get? 15 = some ("true".toList)) }
          location := { latitude := fs.get? 16, longitude := fs.get? 17 } }

/-- rows.map over parseRow; the first thrown TypeError aborts the map and
propagates to the surrounding try/catch. -/
def importRows : List Str → Except Str (List ImportedOffer)
  | [] => .ok []
  | r :: rs =>
    match parseRow r with
    | .error e => .error e
    | .ok o =>
      match importRows rs with
      | .error e => .error e
      | .ok os => .ok (o :: os)

/-- handleImportCommand of cli.ts: split the file content on newlines, map
every row, report success exactly when no exception was thrown. -/
def importSucceeds (content : Str) : Bool :=
  (importRows (splitOnChar '\n' content)).isOk

theorem parseRow_error_of_short (row : Str)
    (h : (splitOnChar '\t' row).length < 5) : ∃ e, parseRow row = .error e := by
  have h4 : (splitOnChar '\t' row).get? 4 = none :=
    List.get?_eq_none.mpr (by omega)
  refine ⟨"TypeError: undefined photos".toList, ?_⟩
  unfold parseRow
  simp only [h4]

theorem importRows_error_of_mem (rs : List Str) (r : Str) (hr : r ∈ rs)
    (e : Str) (he : parseRow r = .error e) :
    ∃ e2, importRows rs = .error e2 := by
  induction rs with
  | nil => cases hr
  | cons a as ih =>
    rcases List.mem_cons.mp hr with rfl | h
    · exact ⟨e, by unfold importRows; rw [he]⟩
    · obtain ⟨e2, he2⟩ := ih h
      cases hp : parseRow a with
      | error ea => exact ⟨ea, by unfold importRows; rw [hp]⟩
      | ok oa => exact ⟨e2, by unfold importRows; rw [hp, he2]⟩

theorem mapM_option_mem_spec {α β : Type} (l : List α) (f : α → Option β)
    (r : List β) (h : l.mapM f = some r) : ∀ y ∈ r, ∃ x ∈ l, f x = some y := by
  induction l generalizing r with
  | nil =>
    have : ([] : List β) = r := Option.some.inj h
    subst this
    simp
  | cons a as ih =>
    rw [List.mapM_cons] at h
    cases hfa : f a with
    | none => rw [hfa] at h; simp at h
    | some b =>
      rw [hfa] at h
      cases hm : as.mapM f with
      | none => rw [hm] at h; simp at h
      | some bs =>
        rw [hm] at h
        simp only [Option.bind_eq_bind, Option.some_bind, Option.pure_def,
          Option.some.injEq] at h
        intro y hy
        rw [← h] at hy
        rcases List.mem_cons.mp hy with rfl | hy2
        · exact ⟨a, by simp, hfa⟩
        · obtain ⟨x, hx, hfx⟩ := ih bs hm y hy2
          exact ⟨x, List.mem_cons_of_mem _ hx, hfx⟩

/-- Every row genRow yields ends with the template's newline. -/
theorem genRow_ends (data : MockServerData) (d : OfferDraws) (row : Str)
    (h : genRow data d = some row) : ∃ b, row = b ++ ['\n'] := by
  unfold genRow at h
  cases hg : genOffer data d with
  | none => rw [hg] at h; simp at h
  | some o =>
    rw [hg] at h
    simp only [Option.map_some', Option.some.injEq] at h
    exact ⟨_, h.symm⟩

theorem flatten_ends_newline (rows : List Str) (hne : rows ≠ [])
    (h : ∀ r ∈ rows, ∃ b, r = b ++ ['\n']) :
    ∃ s, rows.flatten = s ++ ['\n'] := by
  induction rows with
  | nil => exact absurd rfl hne
  | cons r rs ih =>
    cases rs with
    | nil =>
      obtain ⟨b, hb⟩ := h r (by simp)
      exact ⟨b, by simp [hb]⟩
    | cons r2 rs2 =>
      obtain ⟨s, hs⟩ := ih (by simp) (fun x hx => h x (List.mem_cons_of_mem _ hx))
      exact ⟨r ++ s, by simp [List.flatten_cons, hs]⟩

/-- C10: the cli.ts importer throws a TypeError — caught and reported as a
failed import, never as success — for every file whose final newline-split
row has fewer than 5 tab-separated fields; in particular for every
newline-terminated file (the trailing empty row yields undefined for the
photos field before photos.split is applied), hence for every file the
generator produces. -/
theorem c10_import_failure :
    (∀ content : Str,
      (splitOnChar '\t' ((splitOnChar '\n' content).getLastD [])).length < 5 →
      importSucceeds content = false) ∧
    (∀ s : Str, importSucceeds (s ++ ['\n']) = false) ∧
    (∀ (data : MockServerData) (draws : ℕ → OfferDraws) (count : ℕ)
        (rows : List Str), generateOffers data draws count = some rows →
      importSucceeds rows.flatten = false) := by
  have main : ∀ content : Str,
      (splitOnChar '\t' ((splitOnChar '\n' content).getLastD [])).length < 5 →
      importSucceeds content = false := by
    intro content hlen
    obtain ⟨e, he⟩ := parseRow_error_of_short _ hlen
    have hmem : (splitOnChar '\n' content).getLastD [] ∈ splitOnChar '\n' content :=
      getLastD_mem _ _ (splitOnChar_ne_nil _ _)
    obtain ⟨e2, he2⟩ := importRows_error_of_mem _ _ hmem e he
    unfold importSucceeds
    rw [he2]
    rfl
  have second : ∀ s : Str, importSucceeds (s ++ ['\n']) = false := by
    intro s
    apply main
    have hsplit := splitOnChar_append '\n' s ['\n']
    rw [show splitOnChar '\n' (['\n'] : Str) = [[], []] from rfl] at hsplit
    rw [hsplit, getLastD_append _ _ _ (consFirst_ne_nil _ _)]
    simp [List.getLastD_cons, splitOnChar_nil]
  refine ⟨main, second, ?_⟩
  intro data draws count rows hgen
  have horigin := mapM_option_mem_spec (List.range count)
    (fun i => genRow data (draws i)) rows hgen
  have hall : ∀ r2 ∈ rows, ∃ b, r2 = b ++ ['\n'] := by
    intro r2 hr2
    obtain ⟨i, _, hfi⟩ := horigin r2 hr2
    exact genRow_ends data (draws i) r2 hfi
  by_cases hne : rows = []
  · subst hne
    apply main
    simp [splitOnChar_nil, List.getLastD]
  · obtain ⟨s, hs⟩ := flatten_ends_newline rows hne hall
    rw [hs]
    exact second s

theorem c10_witness :
    (splitOnChar '\t' ((splitOnChar '\n' ("x".toList)).getLastD [])).length < 5 ∧
    importSucceeds ("x".toList) = false :=
  ⟨by decide, c10_import_failure.1 ("x".toList) (by decide)⟩

end SixCities
